import Mathlib

/-!
Shallow embedding of `examples/02_decoding/plot_haxby_anova_svm.py`.

The script is a linear pipeline: load a label table (`labels`, `chunks`),
build a boolean `condition_mask` keeping only the labels `face` and `house`,
mask/standardize the 4D functional volume into a feature matrix `X`, filter
`X` and `session` with the same mask, fit an ANOVA+SVM pipeline, obtain
cross-validation scores, report their mean together with a chance level, and
finally inverse-transform the SVM weights back to a spatial volume that is
plotted and saved under a fixed file name.

Samples are rows of plain Lean lists; a 3D volume is flattened row-major into
a flat voxel list, so "same spatial shape as the mask" becomes "same length
as the flattened mask".  Machine floats of the script are modelled as `ℚ`.
The external library stages (masker, feature selector, classifier,
cross-validator) are external collaborators of the script; where one of their
behaviours decides a claim it is modelled from the spec's contract for that
stage, and the corresponding definition says so in its doc comment.
-/

set_option autoImplicit false

namespace HaxbySpec

universe u v
variable {α : Type u} {β : Type v}

/-- NumPy boolean-mask indexing `xs[mask]`: keep the entries of `xs` at the
positions where `mask` is `true` (lines 31, 50, 51 of the script). -/
def applyMask (mask : List Bool) (xs : List α) : List α :=
  ((mask.zip xs).filter (fun p => p.1)).map (fun p => p.2)

/-- Line 30: `condition_mask = np.logical_or(y == b'face', y == b'house')`. -/
def condition_mask (y : List String) : List Bool :=
  y.map (fun l => l == "face" || l == "house")

/-- Line 31: `y = y[condition_mask]` — the filtered label sequence. -/
def filteredLabels (y : List String) : List String :=
  applyMask (condition_mask y) y

/-- Line 33: `n_conditions = np.size(np.unique(y))`, computed on the filtered
labels: the number of distinct label values remaining after the filter. -/
def n_conditions (y : List String) : Nat :=
  (filteredLabels y).dedup.length

/-- Line 97: the printed chance level `1. / n_conditions`. -/
def chanceLevel (y : List String) : ℚ :=
  1 / (n_conditions y : ℚ)

theorem applyMask_nil (mask : List Bool) : applyMask mask ([] : List α) = [] := by
  cases mask <;> rfl

theorem applyMask_cons (b : Bool) (mask : List Bool) (x : α) (xs : List α) :
    applyMask (b :: mask) (x :: xs)
      = if b then x :: applyMask mask xs else applyMask mask xs := by
  cases b <;> simp [applyMask]

/-- Applying one mask to two parallel sequences of equal length keeps them at
equal length. -/
theorem applyMask_length_congr (mask : List Bool) (xs : List α) (ys : List β)
    (h : xs.length = ys.length) :
    (applyMask mask xs).length = (applyMask mask ys).length := by
  induction mask generalizing xs ys with
  | nil => simp [applyMask]
  | cons b m ih =>
    cases xs with
    | nil => cases ys with
      | nil => rfl
      | cons y ys => simp at h
    | cons x xs =>
      cases ys with
      | nil => simp at h
      | cons y ys =>
        simp only [List.length_cons, Nat.succ.injEq] at h
        rw [applyMask_cons, applyMask_cons]
        cases b with
        | false => simpa using ih xs ys h
        | true => simpa using ih xs ys h

/-- Every survivor of filtering a list by the mask `xs.map p` satisfies `p`. -/
theorem pred_of_mem_applyMask_map (p : α → Bool) (xs : List α) (x : α)
    (hx : x ∈ applyMask (xs.map p) xs) : p x = true := by
  induction xs with
  | nil => simp [applyMask] at hx
  | cons a l ih =>
    rw [List.map_cons, applyMask_cons] at hx
    by_cases hp : p a = true
    · simp only [hp, if_true, List.mem_cons] at hx
      cases hx with
      | inl h => rw [h]; exact hp
      | inr h => exact ih h
    · rw [Bool.not_eq_true] at hp
      simp only [hp, Bool.false_eq_true, if_false] at hx
      exact ih hx

theorem filteredLabels_mem (y : List String) (l : String)
    (hl : l ∈ filteredLabels y) : l = "face" ∨ l = "house" := by
  have h := pred_of_mem_applyMask_map (fun l => l == "face" || l == "house") y l hl
  simpa using h

/-- C3: after the condition filter, labels, sessions and feature rows keep
equal lengths, provided the unfiltered table and volume agree on the sample
count (the data-model invariants: label-table length = sample count = time
axis length of the functional volume). -/
theorem filter_preserves_alignment {ρ : Type u} (y : List String)
    (session : List Nat) (X : List ρ)
    (hsess : y.length = session.length) (hX : y.length = X.length) :
    (applyMask (condition_mask y) y).length
        = (applyMask (condition_mask y) session).length
      ∧ (applyMask (condition_mask y) y).length
        = (applyMask (condition_mask y) X).length :=
  ⟨applyMask_length_congr (condition_mask y) y session hsess,
   applyMask_length_congr (condition_mask y) y X hX⟩

/-- Witness for C3 on a concrete 3-row table. -/
theorem filter_preserves_alignment_witness :
    (applyMask (condition_mask ["face", "cat", "house"]) ["face", "cat", "house"]).length
        = (applyMask (condition_mask ["face", "cat", "house"]) [0, 0, 1]).length
      ∧ (applyMask (condition_mask ["face", "cat", "house"]) ["face", "cat", "house"]).length
        = (applyMask (condition_mask ["face", "cat", "house"]) [[(3 : ℚ)], [4], [5]]).length :=
  filter_preserves_alignment ["face", "cat", "house"] [0, 0, 1]
    [[(3 : ℚ)], [4], [5]] (by decide) (by decide)

/-- C4: the condition mask is true at an index iff the label there is `face`
or `house`, and consequently only those two values survive the filter. -/
theorem condition_mask_spec (y : List String) (i : Nat) (hi : i < y.length) :
    ((condition_mask y).getD i false = true
        ↔ (y.getD i "" = "face" ∨ y.getD i "" = "house"))
      ∧ ∀ l ∈ filteredLabels y, l = "face" ∨ l = "house" := by
  constructor
  · have hm : (condition_mask y).getD i false
        = ((y.getD i "") == "face" || (y.getD i "") == "house") := by
      unfold condition_mask
      rw [List.getD_eq_getElem?_getD, List.getD_eq_getElem?_getD,
        List.getElem?_map, List.getElem?_eq_getElem hi]
      rfl
    rw [hm]
    simp
  · exact filteredLabels_mem y

/-- Witness for C4 at index 1 of a concrete table. -/
theorem condition_mask_spec_witness :
    ((condition_mask ["face", "cat", "house"]).getD 1 false = true
        ↔ (["face", "cat", "house"].getD 1 "" = "face"
            ∨ ["face", "cat", "house"].getD 1 "" = "house"))
      ∧ ∀ l ∈ filteredLabels ["face", "cat", "house"],
          l = "face" ∨ l = "house" :=
  condition_mask_spec ["face", "cat", "house"] 1 (by decide)

/-- C6: the printed chance level is `1 / n_conditions` with `n_conditions`
the number of distinct labels after filtering; when both retained classes
actually occur in the filtered labels, this is `1 / 2`. -/
theorem chance_level_spec (y : List String)
    (hf : "face" ∈ filteredLabels y) (hh : "house" ∈ filteredLabels y) :
    chanceLevel y = 1 / (n_conditions y : ℚ)
      ∧ n_conditions y = 2 ∧ chanceLevel y = 1 / 2 := by
  have hset : (filteredLabels y).toFinset = ({"face", "house"} : Finset String) := by
    apply Finset.Subset.antisymm
    · intro l hl
      rw [List.mem_toFinset] at hl
      rcases filteredLabels_mem y l hl with h | h <;> simp [h]
    · intro l hl
      simp only [Finset.mem_insert, Finset.mem_singleton] at hl
      rw [List.mem_toFinset]
      rcases hl with rfl | rfl
      · exact hf
      · exact hh
  have hcard : n_conditions y = 2 := by
    show (filteredLabels y).dedup.length = 2
    rw [← List.card_toFinset, hset]
    decide
  refine ⟨rfl, hcard, ?_⟩
  rw [chanceLevel, hcard]
  norm_num

/-- Witness for C6 on a table containing both classes and a discarded one. -/
theorem chance_level_spec_witness :
    chanceLevel ["face", "house", "cat"]
        = 1 / (n_conditions ["face", "house", "cat"] : ℚ)
      ∧ n_conditions ["face", "house", "cat"] = 2
      ∧ chanceLevel ["face", "house", "cat"] = 1 / 2 :=
  chance_level_spec ["face", "house", "cat"] (by decide) (by decide)

/-- An estimator in the sklearn sense, as far as the script exercises it:
`fit` learns a model from rows and labels, `predict` labels a row with a
fitted model.  The script's `anova_svc` pipeline is one such value. -/
structure Estimator (ρ : Type u) (μ : Type v) where
  fit : List ρ → List String → μ
  predict : μ → ρ → String

/-- A list of cross-validation folds, each a pair
(train indices, test indices). -/
abbrev Folds : Type := List (List Nat × List Nat)

/-- Fancy-index a list by a list of positions (out-of-range positions are
dropped; the folds used below stay in range). -/
def takeIdx (xs : List α) (idx : List Nat) : List α :=
  idx.filterMap (fun i => xs.get? i)

/-- One fold of cross-validation scoring: fit a fresh model on the train
rows, predict the held-out rows, and return the fraction of exact label
matches (classification accuracy). -/
def scoreFold {ρ : Type u} {μ : Type v} (est : Estimator ρ μ) (X : List ρ)
    (y : List String) (fold : List Nat × List Nat) : ℚ :=
  let m := est.fit (takeIdx X fold.1) (takeIdx y fold.1)
  let preds := (takeIdx X fold.2).map (est.predict m)
  (((preds.zip (takeIdx y fold.2)).filter (fun p => p.1 == p.2)).length : ℚ)
    / ((takeIdx y fold.2).length : ℚ)

/-- Sizes of the `k` folds of a `k`-fold partition of `n` samples: each fold
gets `n / k` samples and the first `n % k` folds one extra. -/
def kfoldSizes (n k : Nat) : List Nat :=
  (List.range k).map (fun i => n / k + if i < n % k then 1 else 0)

/-- Contiguous index blocks of the given sizes, starting at `start`. -/
def foldsOfSizes : List Nat → Nat → List (List Nat)
  | [], _ => []
  | c :: rest, start => (List.range c).map (· + start) :: foldsOfSizes rest (start + c)

/-- All indices below `n` that are not in `t` (the train side of a fold). -/
def complementIdx (n : Nat) (t : List Nat) : List Nat :=
  (List.range n).filter (fun i => !(t.contains i))

/-- Modelled from the spec: the cross-validation scheme the library applies
when `cross_val_score` is given no `cv` argument — a fixed fold count (3)
partition of the samples, with no reference to any session assignment
("a default (non-session-aware) scheme"). -/
def defaultFolds (n : Nat) : Folds :=
  (foldsOfSizes (kfoldSizes n 3) 0).map (fun t => (complementIdx n t, t))

/-- Modelled from the spec: `LeaveOneLabelOut(labels)` — one fold per
distinct label value, testing on the rows carrying that value and training
on all other rows. -/
def leaveOneLabelOut (labels : List Nat) : Folds :=
  labels.dedup.map (fun s =>
    ((List.range labels.length).filter (fun i => !(labels.getD i 0 == s)),
     (List.range labels.length).filter (fun i => labels.getD i 0 == s)))

/-- Modelled from the spec: `cross_val_score` fits a fresh copy of the
estimator on the train side of each fold and scores accuracy on the held-out
side; with `cv = none` it uses the library default folds. -/
def cross_val_score {ρ : Type u} {μ : Type v} (est : Estimator ρ μ)
    (X : List ρ) (y : List String) (cv : Option Folds) : List ℚ :=
  (cv.getD (defaultFolds X.length)).map (scoreFold est X y)

/-- Lines 87–90 of the script: construct
`cv = LeaveOneLabelOut(session // 2)` and then compute
`cv_scores = cross_val_score(anova_svc, X, y)` — note that the call passes
no `cv` argument. -/
def scoringStage {ρ : Type u} {μ : Type v} (est : Estimator ρ μ) (X : List ρ)
    (y : List String) (session : List Nat) : List ℚ :=
  let cv := leaveOneLabelOut (session.map (· / 2))
  cross_val_score est X y none

/-- `np.mean` on a list of rationals. -/
def npMean (l : List ℚ) : ℚ := l.sum / (l.length : ℚ)

/-- Line 93: `classification_accuracy = np.mean(cv_scores)`. -/
def classification_accuracy {ρ : Type u} {μ : Type v} (est : Estimator ρ μ)
    (X : List ρ) (y : List String) (session : List Nat) : ℚ :=
  npMean (scoringStage est X y session)

/-- C1: the session-aware splitter built on line 87 plays no role in the
reported score — the scoring stage equals `cross_val_score` under the
library default scheme, and its result is invariant under arbitrary changes
of the session assignment fed to the splitter construction. -/
theorem cv_splitter_unused {ρ : Type u} {μ : Type v} (est : Estimator ρ μ)
    (X : List ρ) (y : List String) (session session' : List Nat) :
    scoringStage est X y session = cross_val_score est X y none
      ∧ scoringStage est X y session = scoringStage est X y session' :=
  ⟨rfl, rfl⟩

/-- A trivial constant classifier, enough to count the folds the scoring
stage produces on a concrete run. -/
def constEstimator : Estimator ℚ Unit :=
  ⟨fun _ _ => (), fun _ _ => "face"⟩

/-- C2 (evaluation at the failing input): on the end-to-end scenario of 4
rows with sessions `[0,0,1,1]`, the script's scoring call yields 3 scores
(the default fixed fold count), not one per distinct session group (2
groups); the splitter the script actually constructs, over
`session // 2 = [0,0,0,0]`, has exactly 1 fold, while `LeaveOneLabelOut`
on the sessions themselves would have the 2 folds the claim describes. -/
theorem cv_scores_not_per_session_group :
    (scoringStage constEstimator [0, 1, 2, 3]
        ["face", "house", "face", "house"] [0, 0, 1, 1]).length = 3
      ∧ ([0, 0, 1, 1] : List Nat).dedup.length = 2
      ∧ ¬ ((scoringStage constEstimator [0, 1, 2, 3]
            ["face", "house", "face", "house"] [0, 0, 1, 1]).length
          = ([0, 0, 1, 1] : List Nat).dedup.length)
      ∧ (leaveOneLabelOut (([0, 0, 1, 1] : List Nat).map (· / 2))).length = 1
      ∧ (leaveOneLabelOut [0, 0, 1, 1]).length = 2 := by
  decide

/-- C7: the reported summary accuracy is the arithmetic mean — sum divided
by count — of the per-fold scores, both for the script's own cv scores and
for any sequence of per-fold scores. -/
theorem classification_accuracy_is_mean {ρ : Type u} {μ : Type v}
    (est : Estimator ρ μ) (X : List ρ) (y : List String)
    (session : List Nat) :
    classification_accuracy est X y session
      = (scoringStage est X y session).sum
          / ((scoringStage est X y session).length : ℚ)
      ∧ ∀ scores : List ℚ, npMean scores = scores.sum / (scores.length : ℚ) :=
  ⟨rfl, fun _ => rfl⟩

/-- `applyMask` commutes with `map`: filtering the images is the same as
filtering the originals and then mapping. -/
theorem applyMask_map {γ : Type v} (f : α → γ) (mask : List Bool) (l : List α) :
    applyMask mask (l.map f) = (applyMask mask l).map f := by
  induction mask generalizing l with
  | nil => simp [applyMask]
  | cons b m ih =>
    cases l with
    | nil => simp [applyMask_nil]
    | cons x xs =>
      rw [List.map_cons, applyMask_cons, applyMask_cons]
      cases b with
      | false => simpa using ih xs
      | true => simp [ih xs]

/-- The rows of `rows` whose parallel `session` entry equals `s`: the block
of samples the per-session statistics are computed from. -/
def sessionGroup {ρ : Type u} (session : List Nat) (rows : List ρ) (s : Nat) :
    List ρ :=
  ((session.zip rows).filter (fun p => p.1 == s)).map (fun p => p.2)

/-- Modelled from the spec: `NiftiMasker(sessions=session, standardize=True)
.fit_transform` standardizes every sample with statistics computed from the
block of samples sharing its session.  `tf` abstracts that statistic-based
transform: its first argument is the block the statistics come from, its
second the sample being transformed. -/
def maskerFitTransform {ρ : Type u} {σ : Type v} (tf : List ρ → ρ → σ)
    (session : List Nat) (rows : List ρ) : List σ :=
  (session.zip rows).map (fun p => tf (sessionGroup session rows p.1) p.2)

/-- Lines 44–51 of the script: `X = masker.fit_transform(func_filename)`
on ALL samples, and only then `X = X[condition_mask]`. -/
def scriptFeatures {ρ : Type u} {σ : Type v} (tf : List ρ → ρ → σ)
    (y : List String) (session : List Nat) (rows : List ρ) : List σ :=
  applyMask (condition_mask y) (maskerFitTransform tf session rows)

/-- Line 51: `session = session[condition_mask]`, after `fit_transform`. -/
def scriptSessions (y : List String) (session : List Nat) : List Nat :=
  applyMask (condition_mask y) session

/-- C9: the masker is configured with the full unfiltered session sequence
and transforms all samples; the condition filter hits the features and the
sessions only afterwards.  Hence every retained row is transformed with
statistics (the first argument of `tf`) drawn from ALL rows of its session
in the unfiltered data — including rows whose conditions are discarded. -/
theorem masker_standardizes_before_filter {ρ : Type u} {σ : Type v}
    (tf : List ρ → ρ → σ) (y : List String) (session : List Nat)
    (rows : List ρ) :
    scriptFeatures tf y session rows
        = (applyMask (condition_mask y) (session.zip rows)).map
            (fun p => tf (sessionGroup session rows p.1) p.2)
      ∧ scriptSessions y session = applyMask (condition_mask y) session := by
  refine ⟨?_, rfl⟩
  rw [scriptFeatures, maskerFitTransform, applyMask_map]

/-- Scatter the values of `v` into the `true` positions of `mask`, zero at
every `false` position.  Modelled from the spec: both inverse transforms
"reconstruct the full original feature space dimensionality (masking out
non-selected/non-masked voxels as zero)". -/
def scatter (mask : List Bool) (v : List ℚ) : List ℚ :=
  match mask with
  | [] => []
  | b :: m => if b then v.headD 0 :: scatter m v.tail else 0 :: scatter m v

/-- Line 107: `feature_selection.inverse_transform(coef)` — the K selected
weights placed at the selected in-mask feature positions, zero elsewhere. -/
def selectKBest_inverse (support : List Bool) (w : List ℚ) : List ℚ :=
  scatter support w

/-- Line 109: `masker.inverse_transform(coef)` — the in-mask feature values
placed at the mask's `true` voxels of the flattened spatial grid, zero at
every voxel outside the mask. -/
def masker_inverse (mask : List Bool) (v : List ℚ) : List ℚ :=
  scatter mask v

/-- Lines 105–109: `svc.coef_` pushed back through the selector's inverse
and then the masker's inverse, giving the spatial weight volume. -/
def weightVolume (mask support : List Bool) (w : List ℚ) : List ℚ :=
  masker_inverse mask (selectKBest_inverse support w)

/-- The in-mask index of voxel `i`: how many `true` entries of `mask` lie
strictly before position `i`. -/
def maskRank (mask : List Bool) (i : Nat) : Nat :=
  (mask.take i).count true

theorem scatter_length (mask : List Bool) (v : List ℚ) :
    (scatter mask v).length = mask.length := by
  induction mask generalizing v with
  | nil => rfl
  | cons b m ih =>
    cases b with
    | false => simp [scatter, ih]
    | true => simp [scatter, ih]

theorem headD_eq_getD_zero (v : List ℚ) : v.headD 0 = v.getD 0 0 := by
  cases v <;> rfl

theorem tail_getD (v : List ℚ) (t : Nat) : v.tail.getD t 0 = v.getD (t + 1) 0 := by
  cases v <;> rfl

theorem maskRank_zero (mask : List Bool) : maskRank mask 0 = 0 := by
  simp [maskRank]

theorem maskRank_cons_succ (b : Bool) (m : List Bool) (j : Nat) :
    maskRank (b :: m) (j + 1)
      = maskRank m j + if b then 1 else 0 := by
  cases b <;> simp [maskRank, List.count_cons]

/-- At any position where the mask is `false` (or beyond its end), the
scattered list reads zero. -/
theorem scatter_getD_of_not_mask (mask : List Bool) (v : List ℚ) (i : Nat)
    (h : mask.getD i false = false) : (scatter mask v).getD i 0 = 0 := by
  induction mask generalizing v i with
  | nil => cases i <;> rfl
  | cons b m ih =>
    cases i with
    | zero =>
      rw [List.getD_cons_zero] at h
      subst h
      simp [scatter]
    | succ j =>
      rw [List.getD_cons_succ] at h
      cases b with
      | false =>
        simpa [scatter, List.getD_cons_succ] using ih v j h
      | true =>
        simpa [scatter, List.getD_cons_succ] using ih v.tail j h

/-- At an in-mask position `i`, the scattered list reads entry `maskRank i`
of the scattered values. -/
theorem scatter_getD_of_mask (mask : List Bool) (v : List ℚ) (i : Nat)
    (hi : i < mask.length) (h : mask.getD i false = true) :
    (scatter mask v).getD i 0 = v.getD (maskRank mask i) 0 := by
  induction mask generalizing v i with
  | nil => simp at hi
  | cons b m ih =>
    cases i with
    | zero =>
      rw [List.getD_cons_zero] at h
      subst h
      rw [maskRank_zero]
      show (v.headD 0 :: scatter m v.tail).getD 0 0 = v.getD 0 0
      rw [List.getD_cons_zero]
      exact headD_eq_getD_zero v
    | succ j =>
      rw [List.getD_cons_succ] at h
      have hj : j < m.length := by simpa using hi
      cases b with
      | true =>
        rw [maskRank_cons_succ]
        simp only [if_true]
        calc (scatter (true :: m) v).getD (j + 1) 0
            = (scatter m v.tail).getD j 0 := by
              simp [scatter, List.getD_cons_succ]
          _ = v.tail.getD (maskRank m j) 0 := ih v.tail j hj h
          _ = v.getD (maskRank m j + 1) 0 := tail_getD v (maskRank m j)
      | false =>
        rw [maskRank_cons_succ]
        simp only [Bool.false_eq_true, if_false, Nat.add_zero]
        calc (scatter (false :: m) v).getD (j + 1) 0
            = (scatter m v).getD j 0 := by
              simp [scatter, List.getD_cons_succ]
          _ = v.getD (maskRank m j) 0 := ih v j hj h

/-- C5: the inverse-transformed weight vector is a volume with exactly the
(flattened) spatial shape of the mask, zero at every voxel outside the
mask, and zero at every in-mask voxel whose in-mask feature index was not
selected by the feature selector. -/
theorem weight_volume_spec (mask support : List Bool) (w : List ℚ) :
    (weightVolume mask support w).length = mask.length
      ∧ (∀ i : Nat, mask.getD i false = false →
          (weightVolume mask support w).getD i 0 = 0)
      ∧ (∀ i : Nat, i < mask.length → mask.getD i false = true →
          support.getD (maskRank mask i) false = false →
          (weightVolume mask support w).getD i 0 = 0) := by
  refine ⟨scatter_length mask _,
    fun i h => scatter_getD_of_not_mask mask _ i h, ?_⟩
  intro i hi hm hs
  rw [weightVolume, masker_inverse, scatter_getD_of_mask mask _ i hi hm,
    selectKBest_inverse, scatter_getD_of_not_mask support w _ hs]

/-- Witness for C5: a 4-voxel grid with 3 in-mask voxels, of which the
selector keeps the first and third; the out-of-mask voxel 1 and the
unselected in-mask voxel 2 both read zero. -/
theorem weight_volume_spec_witness :
    (weightVolume [true, false, true, true] [true, false, true] [5, 7]).length = 4
      ∧ (weightVolume [true, false, true, true] [true, false, true] [5, 7]).getD 1 0 = 0
      ∧ (weightVolume [true, false, true, true] [true, false, true] [5, 7]).getD 2 0 = 0 :=
  ⟨(weight_volume_spec [true, false, true, true] [true, false, true] [5, 7]).1,
   (weight_volume_spec [true, false, true, true] [true, false, true] [5, 7]).2.1
     1 (by decide),
   (weight_volume_spec [true, false, true, true] [true, false, true] [5, 7]).2.2
     2 (by decide) (by decide) (by decide)⟩

/-- Line 120: the file name the script passes to
`weight_img.to_filename(...)` — a string literal hard-coded in the source. -/
def outputFilename : String := "haxby_face_vs_house.nii"

/-- Line 120: `weight_img.to_filename('haxby_face_vs_house.nii')`, modelled
as the (file name, volume) pair written to disk. -/
def scriptSave (vol : List ℚ) : String × List ℚ :=
  (outputFilename, vol)

/-- C8 (counterexample): the output file name does not vary with the
script's inputs — runs saving different volumes write under the same
constant name `haxby_face_vs_house.nii`, so the name is a hard-coded
literal of the script, not a caller-chosen parameter. -/
theorem output_filename_not_caller_chosen :
    (scriptSave [1]).1 = (scriptSave [2]).1
      ∧ (scriptSave [1]).1 = "haxby_face_vs_house.nii" :=
  ⟨rfl, rfl⟩

/-- C8 (amended): every saved volume is written under the fixed name
`haxby_face_vs_house.nii` — a `.nii` (NIfTI) file, i.e. a standard
neuroimaging volumetric format — and that name is a constant of the script
rather than a parameter. -/
theorem output_filename_fixed_nii (vol : List ℚ) :
    (scriptSave vol).1 = "haxby_face_vs_house" ++ ".nii"
      ∧ ".nii".data <:+ (scriptSave vol).1.data :=
  ⟨rfl, (by decide : ".nii".data <:+ outputFilename.data)⟩

/-- Modelled from the spec: `cross_val_score` "repeatedly refits" fresh
copies (clones) of the composed pipeline for its folds, so the fitted state
`st` the caller holds is handed back unchanged next to the fold scores. -/
def cross_val_score_stateful {ρ : Type u} {μ : Type v} (est : Estimator ρ μ)
    (st : Option μ) (X : List ρ) (y : List String) (cv : Option Folds) :
    List ℚ × Option μ :=
  (cross_val_score est X y cv, st)

/-- The observable results of the decoding half of the script: the fitted
state as of the visualization lines, the cv scores, the mean accuracy, and
the saved (file name, weight volume) pair. -/
structure DecodeResult (μ : Type v) where
  fittedAfterCv : Option μ
  cv_scores : List ℚ
  accuracy : ℚ
  savedName : String
  savedVolume : List ℚ

/-- Lines 76–120 of the script with the pipeline's fitted state threaded
explicitly: fit once on the full filtered data (line 76), construct the
unused splitter (line 87), cross-validate (line 90), average (line 93),
read `svc.coef_` and the selector's support from the state current at that
point (lines 104–109, via `extract`), and save the inverse-transformed
volume under the fixed name (line 120). -/
def scriptDecode {ρ : Type u} {μ : Type v} (est : Estimator ρ μ)
    (extract : μ → List Bool × List ℚ) (mask : List Bool)
    (X : List ρ) (y : List String) (session : List Nat) : DecodeResult μ :=
  let fitted : Option μ := some (est.fit X y)
  let cv := leaveOneLabelOut (session.map (· / 2))
  let scored := cross_val_score_stateful est fitted X y none
  let acc := npMean scored.1
  let fs := (scored.2.map extract).getD ([], [])
  let vol := weightVolume mask fs.1 fs.2
  ⟨scored.2, scored.1, acc, outputFilename, vol⟩

/-- C10: the intervening `cross_val_score` call leaves the fitted state
unchanged, so the weight vector that is inverse-transformed and saved is
exactly the one from the single `anova_svc.fit` on the full filtered
dataset. -/
theorem weights_from_single_fit {ρ : Type u} {μ : Type v}
    (est : Estimator ρ μ) (extract : μ → List Bool × List ℚ)
    (mask : List Bool) (X : List ρ) (y : List String) (session : List Nat) :
    (scriptDecode est extract mask X y session).fittedAfterCv
        = some (est.fit X y)
      ∧ (scriptDecode est extract mask X y session).savedVolume
        = weightVolume mask (extract (est.fit X y)).1
            (extract (est.fit X y)).2 :=
  ⟨rfl, rfl⟩

end HaxbySpec
